import Mathlib

/- Verification development for the jetson-agx-pinmux repository.

   Shallow embedding of the three Python scripts:
   * `Gen`     : gen_pinmux_dt_from_xlsx.py  (bitfield encoder/decoder, row
                 classifier, DTSI renderer).  Spreadsheet-cell plumbing is out
                 of scope; a `Row` carries the cell strings of one data row.
   * `DeltaC`  : Pinmux_dtsi_delta.py        (comment-preserving differ).
   * `DeltaRx` : pinmux_dtsi_delta.py        (regex-based standalone differ).

   Python integers are Nat (all configuration words are non-negative; the one
   negative sentinel -1 is modelled with Int exactly where the source uses it).
   Python strings are Lean String; the Python primitives used by the scripts
   (strip, lower, splitlines, the substring test `in`, dict assignment,
   sorted) are re-implemented character-by-character below in `Py`, restricted
   to ASCII text exactly as the repository's documents use it (line separator
   is the newline character, whitespace is the ASCII class of the regex \s). -/

namespace Py

/- The ASCII whitespace class of Python's `str.strip` and of the regex \s :
   space, tab, newline, carriage return, vertical tab, form feed. -/
def pyIsSpace (c : Char) : Bool :=
  c = ' ' || c = '\t' || c = '\n' || c = '\r' || c = Char.ofNat 11 || c = Char.ofNat 12

/- `str.strip()` on a character list : drop whitespace at both ends. -/
def stripL (cs : List Char) : List Char :=
  ((cs.dropWhile pyIsSpace).reverse.dropWhile pyIsSpace).reverse

/- `str.strip()`. -/
def pyStrip (s : String) : String := String.mk (stripL s.toList)

/- `str.rstrip()` : drop whitespace at the right end. -/
def pyRstrip (s : String) : String :=
  String.mk (s.toList.reverse.dropWhile pyIsSpace).reverse

/- `str.lower()` (ASCII). -/
def pyLower (s : String) : String := String.mk (s.toList.map Char.toLower)

/- Python's substring test `needle in hay` on character lists. -/
def isInfixL (needle hay : List Char) : Bool :=
  match hay with
  | [] => needle.isEmpty
  | _ :: rest => needle.isPrefixOf hay || isInfixL needle rest

/- Python's substring test `needle in hay`. -/
def pyIn (needle hay : String) : Bool := isInfixL needle.toList hay.toList

/- `str.startswith`. -/
def pyStarts (p s : String) : Bool := p.toList.isPrefixOf s.toList

/- Splitting a character list at newline characters (keeps a final empty
   piece when the text ends in a newline; the wrapper below removes it,
   giving `str.splitlines()` for newline-separated text). -/
def splitNlGo : List Char → List Char → List (List Char)
  | [], acc => [acc.reverse]
  | c :: rest, acc =>
    if c = '\n' then acc.reverse :: splitNlGo rest []
    else splitNlGo rest (c :: acc)

/- `str.splitlines()` for newline-separated text. -/
def pySplitlines (s : String) : List String :=
  let parts := splitNlGo s.toList []
  (if parts.getLast? = some [] then parts.dropLast else parts).map String.mk

/- Python string `<=` : code-point lexicographic comparison. -/
def charListLe : List Char → List Char → Bool
  | [], _ => true
  | _ :: _, [] => false
  | a :: as, b :: bs => if a < b then true else if b < a then false else charListLe as bs

/- Python string `<=` as a decidable relation on String. -/
def pyLe (a b : String) : Prop := charListLe a.toList b.toList = true

instance : DecidableRel pyLe := fun a b =>
  inferInstanceAs (Decidable (charListLe a.toList b.toList = true))

/- `sorted(...)` on a list of strings (Python's sort is a stable comparison
   sort; on the duplicate-free key lists it is applied to here any comparison
   sort computes the same list). -/
def pySorted (l : List String) : List String := List.insertionSort pyLe l

/- A Python dict as an association list : assignment replaces the value of an
   existing key in place and appends a fresh key at the end, exactly the
   insertion-order semantics of `d[k] = v`. -/
def pyInsert {α : Type} (d : List (String × α)) (k : String) (v : α) : List (String × α) :=
  match d with
  | [] => [(k, v)]
  | (k1, v1) :: rest => if k1 = k then (k, v) :: rest else (k1, v1) :: pyInsert rest k v

/- `d.get(k)` : first (= unique) binding of the key. -/
def pyGet {α : Type} (d : List (String × α)) (k : String) : Option α :=
  match d with
  | [] => none
  | (k1, v1) :: rest => if k1 = k then some v1 else pyGet rest k

/- The value of the last pair with the given key in an occurrence list. -/
def lastVal {α : Type} : List (String × α) → String → Option α
  | [], _ => none
  | pv :: rest, k =>
    match lastVal rest k with
    | some v => some v
    | none => if pv.1 = k then some pv.2 else none

end Py

/- ===== gen_pinmux_dt_from_xlsx.py ===== -/

namespace Gen

/- BallConfig bits. -/
def CFG_RCV_SEL : Nat := 1
def CFG_LOCK : Nat := 2
def CFG_OD : Nat := 4
def CFG_E_INPUT : Nat := 8
def CFG_TRISTATE : Nat := 16
def CFG_PULL_DOWN : Nat := 32
def CFG_PULL_UP : Nat := 64
def CFG_I2C : Nat := 128
def CFG_DDC : Nat := 256
def CFG_HAS_EQOS : Nat := 2048
def CFG_EQOS : Nat := 4096
def CFG_DRV_1X : Nat := 512
def CFG_DEF_1X : Nat := 1024

def ERR_PULL : Int := -1
def ERR_LPDR : Int := -1

def get_pull (config_bits : Nat) : String :=
  let checker := config_bits &&& (CFG_PULL_UP ||| CFG_PULL_DOWN)
  let checker1 := checker / CFG_PULL_DOWN % 4
  let checker2 : Int := if checker1 > 2 then ERR_PULL else (checker1 : Int)
  if checker2 = 0 then "TEGRA_PIN_PULL_NONE"
  else if checker2 = 1 then "TEGRA_PIN_PULL_DOWN"
  else if checker2 = 2 then "TEGRA_PIN_PULL_UP"
  else toString checker2

def get_tristate (config_bits : Nat) : String :=
  let checker := config_bits &&& CFG_TRISTATE
  let checker1 := checker / CFG_TRISTATE % 2
  if checker1 ≠ 0 then "TEGRA_PIN_ENABLE" else "TEGRA_PIN_DISABLE"

def get_einput (config_bits : Nat) : String :=
  let checker := config_bits &&& CFG_E_INPUT
  let checker1 := checker / CFG_E_INPUT % 2
  if checker1 ≠ 0 then "TEGRA_PIN_ENABLE" else "TEGRA_PIN_DISABLE"

def get_lpdr (config_bits : Nat) : String :=
  let checker := config_bits &&& (CFG_DRV_1X ||| CFG_DEF_1X)
  let checker1 := checker / CFG_DRV_1X % 4
  let checker2 : Int := if checker1 > 3 then ERR_LPDR else (checker1 : Int)
  if checker2 = 0 then "TEGRA_PIN_1X_DRIVER"
  else if checker2 = 1 then "TEGRA_PIN_2X_DRIVER"
  else if checker2 = 2 then "TEGRA_PIN_DEFAULT_DRIVE_1X"
  else if checker2 = 3 then "TEGRA_PIN_DEFAULT_DRIVE_2X"
  else "TEGRA_PIN_COMP"

def get_lock (config_bits : Nat) : String :=
  let checker := config_bits &&& CFG_LOCK
  let checker1 := checker / CFG_LOCK % 2
  if checker1 ≠ 0 then "TEGRA_PIN_ENABLE" else "TEGRA_PIN_DISABLE"

def get_od (config_bits : Nat) : String :=
  let checker := config_bits &&& CFG_OD
  let checker1 := checker / CFG_OD % 2
  if checker1 ≠ 0 then "TEGRA_PIN_ENABLE" else "TEGRA_PIN_DISABLE"

def get_ddc (config_bits : Nat) : Nat :=
  (config_bits &&& CFG_DDC) / CFG_DDC % 2

def get_rcvsel (config_bits : Nat) : String :=
  let checker := config_bits &&& CFG_RCV_SEL
  let checker1 := checker / CFG_RCV_SEL % 2
  if checker1 ≠ 0 then "TEGRA_PIN_ENABLE" else "TEGRA_PIN_DISABLE"

def get_has_eqos (config_bits : Nat) : Nat :=
  (config_bits &&& CFG_HAS_EQOS) / CFG_HAS_EQOS % 2

def get_eqos (config_bits : Nat) : String :=
  let checker := config_bits &&& CFG_EQOS
  let checker1 := checker / CFG_EQOS % 2
  if checker1 ≠ 0 then "TEGRA_PIN_ENABLE" else "TEGRA_PIN_DISABLE"

/- One data row of the sheet: the raw cell strings of columns A (pin number),
   B (signal name), C (MPIO pin identifier) and AS-AX that the generator
   reads.  An absent cell is the empty string, which is exactly what the
   source's `_as_str(None)` produces. -/
structure Row where
  pin_num : String
  signal_name : String
  mpio : String
  function : String
  direction : String
  pull_cfg : String
  enable_input : String
  drv_enable : String

/- The local strings `au_s`, `at_s`, `av_s`, `ax_s` of
   `encode_config_bits_for_row` : `_as_str(cell).lower()`. -/
def au_of (row : Row) : String := Py.pyLower (Py.pyStrip row.pull_cfg)

def at_of (row : Row) : String := Py.pyLower (Py.pyStrip row.direction)

def av_of (row : Row) : String := Py.pyLower (Py.pyStrip row.enable_input)

def ax_of (row : Row) : String := Py.pyLower (Py.pyStrip row.drv_enable)

/- The `bits |= ...` accumulation of the source, written as the bitwise or of
   its four contribution groups in source order (pull from AU, then
   direction), then the AX tristate override, then drive strength from AU. -/
def encode_config_bits_for_row (row : Row) : Nat :=
  (if Py.pyIn "int pu" (au_of row) then CFG_PULL_UP
   else if Py.pyIn "int pd" (au_of row) then CFG_PULL_DOWN
   else 0) |||
  (if at_of row == "input" then CFG_TRISTATE ||| CFG_E_INPUT
   else if at_of row == "output" then (if av_of row == "yes" then CFG_E_INPUT else 0)
   else 0) |||
  (if ax_of row == "disable" then CFG_TRISTATE else 0) |||
  (if Py.pyIn "drive 0" (au_of row) then CFG_DRV_1X
   else if Py.pyIn "drive 1" (au_of row) then CFG_DRV_1X ||| CFG_DEF_1X
   else 0)

/- `encode_config_bits_for_row` as a function of its eight Boolean tests. -/
def encBits (pu pd d0 d1 inp outp yes dis : Bool) : Nat :=
  (if pu then CFG_PULL_UP
   else if pd then CFG_PULL_DOWN
   else 0) |||
  (if inp then CFG_TRISTATE ||| CFG_E_INPUT
   else if outp then (if yes then CFG_E_INPUT else 0)
   else 0) |||
  (if dis then CFG_TRISTATE else 0) |||
  (if d0 then CFG_DRV_1X
   else if d1 then CFG_DRV_1X ||| CFG_DEF_1X
   else 0)

theorem encode_eq_encBits (row : Row) :
    encode_config_bits_for_row row =
      encBits (Py.pyIn "int pu" (au_of row)) (Py.pyIn "int pd" (au_of row))
        (Py.pyIn "drive 0" (au_of row)) (Py.pyIn "drive 1" (au_of row))
        (at_of row == "input") (at_of row == "output")
        (av_of row == "yes") (ax_of row == "disable") := rfl

end Gen

/- Exhaustive characterization of the encoder over its eight Boolean tests:
   which bit each test sets, and what each decoder returns on the result. -/
set_option synthInstance.maxSize 4096 in
set_option maxHeartbeats 1000000 in
theorem encBits_policy : ∀ pu pd d0 d1 inp outp yes dis : Bool,
    (inp = true →
      Gen.encBits pu pd d0 d1 inp outp yes dis &&& Gen.CFG_TRISTATE ≠ 0 ∧
        Gen.encBits pu pd d0 d1 inp outp yes dis &&& Gen.CFG_E_INPUT ≠ 0) ∧
    (inp = false → outp = true →
      (Gen.encBits pu pd d0 d1 inp outp yes dis &&& Gen.CFG_E_INPUT ≠ 0 ↔ yes = true)) ∧
    (inp = false → outp = true → yes = false →
      Gen.get_einput (Gen.encBits pu pd d0 d1 inp outp yes dis) = "TEGRA_PIN_DISABLE") ∧
    (dis = true → Gen.encBits pu pd d0 d1 inp outp yes dis &&& Gen.CFG_TRISTATE ≠ 0) ∧
    (d0 = true →
      Gen.encBits pu pd d0 d1 inp outp yes dis &&& Gen.CFG_DRV_1X ≠ 0 ∧
        Gen.encBits pu pd d0 d1 inp outp yes dis &&& Gen.CFG_DEF_1X = 0) ∧
    (d0 = false → d1 = true →
      Gen.encBits pu pd d0 d1 inp outp yes dis &&& Gen.CFG_DRV_1X ≠ 0 ∧
        Gen.encBits pu pd d0 d1 inp outp yes dis &&& Gen.CFG_DEF_1X ≠ 0) ∧
    (pu = true →
      Gen.encBits pu pd d0 d1 inp outp yes dis &&& Gen.CFG_PULL_UP ≠ 0 ∧
        Gen.encBits pu pd d0 d1 inp outp yes dis &&& Gen.CFG_PULL_DOWN = 0) ∧
    (pu = false → pd = true →
      Gen.encBits pu pd d0 d1 inp outp yes dis &&& Gen.CFG_PULL_DOWN ≠ 0 ∧
        Gen.encBits pu pd d0 d1 inp outp yes dis &&& Gen.CFG_PULL_UP = 0) ∧
    (pu = false → pd = false →
      Gen.encBits pu pd d0 d1 inp outp yes dis &&& Gen.CFG_PULL_UP = 0 ∧
        Gen.encBits pu pd d0 d1 inp outp yes dis &&& Gen.CFG_PULL_DOWN = 0) ∧
    (Gen.get_pull (Gen.encBits pu pd d0 d1 inp outp yes dis) =
      if pu then "TEGRA_PIN_PULL_UP"
      else if pd then "TEGRA_PIN_PULL_DOWN"
      else "TEGRA_PIN_PULL_NONE") ∧
    (Gen.get_tristate (Gen.encBits pu pd d0 d1 inp outp yes dis) =
      if inp || dis then "TEGRA_PIN_ENABLE" else "TEGRA_PIN_DISABLE") ∧
    (Gen.get_einput (Gen.encBits pu pd d0 d1 inp outp yes dis) =
      if inp || (outp && yes) then "TEGRA_PIN_ENABLE" else "TEGRA_PIN_DISABLE") ∧
    (Gen.get_lpdr (Gen.encBits pu pd d0 d1 inp outp yes dis) =
      if d0 then "TEGRA_PIN_2X_DRIVER"
      else if d1 then "TEGRA_PIN_DEFAULT_DRIVE_2X"
      else "TEGRA_PIN_1X_DRIVER") := by
  intro pu pd d0 d1 inp outp yes dis
  cases pu <;> cases pd <;> cases d0 <;> cases d1 <;>
    cases inp <;> cases outp <;> cases yes <;> cases dis <;> decide

/-- C6: the encoder's bit policy, row by row: direction "input" sets both the
tristate and enable-input bits; direction "output" sets enable-input exactly
when the explicit input-enable hint "yes" is present, and without the hint the
enable-input field decodes as disabled; an explicit output-disable flag sets
the tristate bit; drive selector "drive 0" sets the 1x-driver bit alone while
"drive 1" sets both the 1x-driver and default-1x bits; pull "int pu" / "int pd"
sets the single matching pull bit and "z" / "n/a" / absent sets neither. -/
theorem encode_config_bits_case_policy (r : Gen.Row) :
    (Gen.at_of r = "input" →
      Gen.encode_config_bits_for_row r &&& Gen.CFG_TRISTATE ≠ 0 ∧
        Gen.encode_config_bits_for_row r &&& Gen.CFG_E_INPUT ≠ 0) ∧
    (Gen.at_of r = "output" →
      (Gen.encode_config_bits_for_row r &&& Gen.CFG_E_INPUT ≠ 0 ↔ Gen.av_of r = "yes")) ∧
    (Gen.at_of r = "output" → Gen.av_of r ≠ "yes" →
      Gen.get_einput (Gen.encode_config_bits_for_row r) = "TEGRA_PIN_DISABLE") ∧
    (Gen.ax_of r = "disable" → Gen.encode_config_bits_for_row r &&& Gen.CFG_TRISTATE ≠ 0) ∧
    (Gen.au_of r = "drive 0" →
      Gen.encode_config_bits_for_row r &&& Gen.CFG_DRV_1X ≠ 0 ∧
        Gen.encode_config_bits_for_row r &&& Gen.CFG_DEF_1X = 0) ∧
    (Gen.au_of r = "drive 1" →
      Gen.encode_config_bits_for_row r &&& Gen.CFG_DRV_1X ≠ 0 ∧
        Gen.encode_config_bits_for_row r &&& Gen.CFG_DEF_1X ≠ 0) ∧
    (Gen.au_of r = "int pu" →
      Gen.encode_config_bits_for_row r &&& Gen.CFG_PULL_UP ≠ 0 ∧
        Gen.encode_config_bits_for_row r &&& Gen.CFG_PULL_DOWN = 0) ∧
    (Gen.au_of r = "int pd" →
      Gen.encode_config_bits_for_row r &&& Gen.CFG_PULL_DOWN ≠ 0 ∧
        Gen.encode_config_bits_for_row r &&& Gen.CFG_PULL_UP = 0) ∧
    ((Gen.au_of r = "z" ∨ Gen.au_of r = "n/a" ∨ Gen.au_of r = "") →
      Gen.encode_config_bits_for_row r &&& Gen.CFG_PULL_UP = 0 ∧
        Gen.encode_config_bits_for_row r &&& Gen.CFG_PULL_DOWN = 0) := by
  obtain ⟨p1, p2, p3, p4, p5, p6, p7, p8, p9, -, -, -, -⟩ :=
    encBits_policy (Py.pyIn "int pu" (Gen.au_of r)) (Py.pyIn "int pd" (Gen.au_of r))
      (Py.pyIn "drive 0" (Gen.au_of r)) (Py.pyIn "drive 1" (Gen.au_of r))
      (Gen.at_of r == "input") (Gen.at_of r == "output")
      (Gen.av_of r == "yes") (Gen.ax_of r == "disable")
  rw [Gen.encode_eq_encBits]
  refine ⟨?_, ?_, ?_, ?_, ?_, ?_, ?_, ?_, ?_⟩
  · intro h; exact p1 (by rw [h]; decide)
  · intro h; exact (p2 (by rw [h]; decide) (by rw [h]; decide)).trans beq_iff_eq
  · intro h h2
    exact p3 (by rw [h]; decide) (by rw [h]; decide) (beq_eq_false_iff_ne.mpr h2)
  · intro h; exact p4 (by rw [h]; decide)
  · intro h; exact p5 (by rw [h]; decide)
  · intro h; exact p6 (by rw [h]; decide) (by rw [h]; decide)
  · intro h; exact p7 (by rw [h]; decide)
  · intro h; exact p8 (by rw [h]; decide) (by rw [h]; decide)
  · intro h; rcases h with h | h | h <;> exact p9 (by rw [h]; decide) (by rw [h]; decide)

/-- Witness for C6: a row with direction "Input" gets the tristate bit set. -/
theorem encode_config_bits_case_policy_w :
    Gen.encode_config_bits_for_row ⟨"", "", "GP2", "i2c3", "Input", "Z", "", ""⟩ &&&
      Gen.CFG_TRISTATE ≠ 0 :=
  ((encode_config_bits_case_policy ⟨"", "", "GP2", "i2c3", "Input", "Z", "", ""⟩).1
    (by decide)).1

/-- C5: round trip.  For every row (all of which encode to a pull-non-ambiguous
word), decoding each named field of the encoded word returns exactly the value
implied by the row's attributes: the pull field decodes back to the row's pull
mode, tristate and enable-input decode to the values prescribed by the
direction and the input-enable / output-disable flags, and the drive-type
field decodes to the value prescribed by the drive-strength selector (selector
"drive 0" puts field value 1 = 2x-driver, "drive 1" puts field value 3 =
default-2x, no selector puts field value 0 = 1x-driver). -/
theorem encode_decode_round_trip (r : Gen.Row)
    (_hna : Gen.get_pull (Gen.encode_config_bits_for_row r) ≠ "-1") :
    Gen.get_pull (Gen.encode_config_bits_for_row r) =
      (if Py.pyIn "int pu" (Gen.au_of r) then "TEGRA_PIN_PULL_UP"
       else if Py.pyIn "int pd" (Gen.au_of r) then "TEGRA_PIN_PULL_DOWN"
       else "TEGRA_PIN_PULL_NONE") ∧
    Gen.get_tristate (Gen.encode_config_bits_for_row r) =
      (if Gen.at_of r = "input" ∨ Gen.ax_of r = "disable" then "TEGRA_PIN_ENABLE"
       else "TEGRA_PIN_DISABLE") ∧
    Gen.get_einput (Gen.encode_config_bits_for_row r) =
      (if Gen.at_of r = "input" ∨ (Gen.at_of r = "output" ∧ Gen.av_of r = "yes") then
        "TEGRA_PIN_ENABLE"
       else "TEGRA_PIN_DISABLE") ∧
    Gen.get_lpdr (Gen.encode_config_bits_for_row r) =
      (if Py.pyIn "drive 0" (Gen.au_of r) then "TEGRA_PIN_2X_DRIVER"
       else if Py.pyIn "drive 1" (Gen.au_of r) then "TEGRA_PIN_DEFAULT_DRIVE_2X"
       else "TEGRA_PIN_1X_DRIVER") := by
  obtain ⟨-, -, -, -, -, -, -, -, -, q10, q11, q12, q13⟩ :=
    encBits_policy (Py.pyIn "int pu" (Gen.au_of r)) (Py.pyIn "int pd" (Gen.au_of r))
      (Py.pyIn "drive 0" (Gen.au_of r)) (Py.pyIn "drive 1" (Gen.au_of r))
      (Gen.at_of r == "input") (Gen.at_of r == "output")
      (Gen.av_of r == "yes") (Gen.ax_of r == "disable")
  rw [Gen.encode_eq_encBits]
  refine ⟨?_, ?_, ?_, ?_⟩
  · rw [q10]
  · rw [q11]; simp only [Bool.or_eq_true, beq_iff_eq]
  · rw [q12]; simp only [Bool.or_eq_true, Bool.and_eq_true, beq_iff_eq]
  · rw [q13]

/-- Witness for C5: a row with pull "Int PU" decodes its pull field back to
pull-up after encoding. -/
theorem encode_decode_round_trip_w :
    Gen.get_pull (Gen.encode_config_bits_for_row
      ⟨"", "", "GP1", "uart1", "Input", "Int PU", "", ""⟩) = "TEGRA_PIN_PULL_UP" := by
  have h := (encode_decode_round_trip
    ⟨"", "", "GP1", "uart1", "Input", "Int PU", "", ""⟩ (by decide)).1
  rw [h]; decide

/- Bit-mask arithmetic helpers used to settle the decoder claims. -/

theorem land_or_split (a b c : Nat) : a &&& (b ||| c) = a &&& b ||| (a &&& c) :=
  Nat.eq_of_testBit_eq fun i => by
    simp [Nat.testBit_land, Nat.testBit_lor, Bool.and_or_distrib_left]

theorem land_pow_32 (w : Nat) : w &&& 32 = if w.testBit 5 then 32 else 0 := by
  rw [show (32 : Nat) = 2 ^ 5 by norm_num, Nat.and_two_pow]
  cases w.testBit 5 <;> simp

theorem land_pow_64 (w : Nat) : w &&& 64 = if w.testBit 6 then 64 else 0 := by
  rw [show (64 : Nat) = 2 ^ 6 by norm_num, Nat.and_two_pow]
  cases w.testBit 6 <;> simp

theorem land_96_split (w : Nat) :
    w &&& 96 = (if w.testBit 6 then 64 else 0) + (if w.testBit 5 then 32 else 0) := by
  rw [show (96 : Nat) = 64 ||| 32 by decide, land_or_split, land_pow_64, land_pow_32]
  cases w.testBit 6 <;> cases w.testBit 5 <;> decide

theorem get_pull_eq_table (w : Nat) :
    Gen.get_pull w =
      if w.testBit 6 then (if w.testBit 5 then "-1" else "TEGRA_PIN_PULL_UP")
      else (if w.testBit 5 then "TEGRA_PIN_PULL_DOWN" else "TEGRA_PIN_PULL_NONE") := by
  have h96 := land_96_split w
  simp only [Gen.get_pull, Gen.CFG_PULL_UP, Gen.CFG_PULL_DOWN,
    show (64 ||| 32 : Nat) = 96 from by decide]
  cases h6 : w.testBit 6 <;> cases h5 : w.testBit 5 <;>
    simp [h6, h5] at h96 <;> simp only [h96, h6, h5] <;> decide

/-- C1: for every configuration word `w`, `get_pull` computes the two-bit field
`(w &&& (CFG_PULL_UP ||| CFG_PULL_DOWN)) / CFG_PULL_DOWN % 4` and returns one of
pull-none / pull-down / pull-up / the ambiguous sentinel; field value 0 maps to
pull-none, 1 to pull-down, 2 to pull-up; the ambiguous result "-1" occurs iff
both pull bits of `w` are set, and then none of the three valid pull names is
returned (the sentinel is surfaced, not defaulted). -/
theorem get_pull_two_bit_decode (w : Nat) :
    (Gen.get_pull w = "TEGRA_PIN_PULL_NONE" ∨ Gen.get_pull w = "TEGRA_PIN_PULL_DOWN" ∨
      Gen.get_pull w = "TEGRA_PIN_PULL_UP" ∨ Gen.get_pull w = "-1") ∧
    ((w &&& (Gen.CFG_PULL_UP ||| Gen.CFG_PULL_DOWN)) / Gen.CFG_PULL_DOWN % 4 = 0 →
      Gen.get_pull w = "TEGRA_PIN_PULL_NONE") ∧
    ((w &&& (Gen.CFG_PULL_UP ||| Gen.CFG_PULL_DOWN)) / Gen.CFG_PULL_DOWN % 4 = 1 →
      Gen.get_pull w = "TEGRA_PIN_PULL_DOWN") ∧
    ((w &&& (Gen.CFG_PULL_UP ||| Gen.CFG_PULL_DOWN)) / Gen.CFG_PULL_DOWN % 4 = 2 →
      Gen.get_pull w = "TEGRA_PIN_PULL_UP") ∧
    (Gen.get_pull w = "-1" ↔ w &&& Gen.CFG_PULL_UP ≠ 0 ∧ w &&& Gen.CFG_PULL_DOWN ≠ 0) ∧
    (w &&& Gen.CFG_PULL_UP ≠ 0 ∧ w &&& Gen.CFG_PULL_DOWN ≠ 0 →
      Gen.get_pull w ≠ "TEGRA_PIN_PULL_NONE" ∧ Gen.get_pull w ≠ "TEGRA_PIN_PULL_DOWN" ∧
        Gen.get_pull w ≠ "TEGRA_PIN_PULL_UP") := by
  have ht := get_pull_eq_table w
  have h96 := land_96_split w
  have h64 := land_pow_64 w
  have h32 := land_pow_32 w
  simp only [Gen.CFG_PULL_UP, Gen.CFG_PULL_DOWN, show (64 ||| 32 : Nat) = 96 from by decide]
  cases h6 : w.testBit 6 <;> cases h5 : w.testBit 5 <;>
    simp [h6, h5] at ht h96 h64 h32 <;> rw [ht, h96, h64, h32] <;> decide

/-- Witness for C1 at the concrete word 96 (both pull bits set). -/
theorem get_pull_two_bit_decode_w : Gen.get_pull 96 = "-1" :=
  (get_pull_two_bit_decode 96).2.2.2.2.1.mpr (by decide)

namespace Gen

/- Classification of one row (the "Unused rules" of main): no function, or a
   function text beginning with "unused", or direction "not assigned" / "n/a"
   (the sheet spells these "Not Assigned" and "N/A"; the test is made on the
   stripped, lowered cell). -/
def isUnusedRow (r : Row) : Bool :=
  Py.pyStrip r.function == "" ||
  Py.pyStarts "unused" (Py.pyLower (Py.pyStrip r.function)) ||
  at_of r == "not assigned" || at_of r == "n/a"

/- A row takes part at all only when its stripped MPIO cell is non-empty. -/
def rowKept (r : Row) : Bool := !(Py.pyStrip r.mpio == "")

/- main's two row lists, in table order. -/
def used_rows (rows : List Row) : List Row :=
  rows.filter (fun r => rowKept r && !isUnusedRow r)

def unused_rows (rows : List Row) : List Row :=
  rows.filter (fun r => rowKept r && isUnusedRow r)

/- One slot of the parallel arrays main fills for print_pinmux_dt. -/
structure PinEntry where
  mpio : String
  sfio : String
  cfg : Nat
  pin_num : String
  signal_name : String

def usedEntryOf (r : Row) : PinEntry :=
  ⟨Py.pyStrip r.mpio, Py.pyStrip r.function, encode_config_bits_for_row r,
   Py.pyStrip r.pin_num, Py.pyStrip r.signal_name⟩

/- For the unused group an empty function cell becomes the placeholder. -/
def unusedEntryOf (r : Row) : PinEntry :=
  ⟨Py.pyStrip r.mpio,
   if Py.pyStrip r.function == "" then "unused" else Py.pyStrip r.function,
   encode_config_bits_for_row r, Py.pyStrip r.pin_num, Py.pyStrip r.signal_name⟩

/- The two filling loops of main (used pins first, then unused). -/
def usedEntries (rows : List Row) : List PinEntry := (used_rows rows).map usedEntryOf

def unusedEntries (rows : List Row) : List PinEntry := (unused_rows rows).map unusedEntryOf

def TAB : String := "\t"
def DOUBLE_TAB : String := "\t\t"
def TRIPLE_TAB : String := "\t\t\t"
def QUAD_TAB : String := "\t\t\t\t"

/- The lines one pin contributes inside a section: the shared body of the two
   loops of print_pinmux_dt (optional "/* Pin number - signal */" comment,
   header, the six always-present fields, the four conditional flags, the
   closing line). -/
def entryBlockLines (e : PinEntry) : List String :=
  (let parts := (if e.pin_num ≠ "" then [e.pin_num] else []) ++
      (if e.signal_name ≠ "" then [e.signal_name] else [])
   if parts ≠ [] then
     [TRIPLE_TAB ++ "/* Pin " ++ String.intercalate " - " parts ++ " */"]
   else []) ++
  [TRIPLE_TAB ++ e.mpio ++ " \x7b",
   QUAD_TAB ++ "nvidia,pins = \"" ++ e.mpio ++ "\";",
   QUAD_TAB ++ "nvidia,function = \"" ++ e.sfio ++ "\";",
   QUAD_TAB ++ "nvidia,pull = <" ++ get_pull e.cfg ++ ">;",
   QUAD_TAB ++ "nvidia,tristate = <" ++ get_tristate e.cfg ++ ">;",
   QUAD_TAB ++ "nvidia,enable-input = <" ++ get_einput e.cfg ++ ">;",
   QUAD_TAB ++ "nvidia,drv-type = <" ++ get_lpdr e.cfg ++ ">;"] ++
  (if get_lock e.cfg == "TEGRA_PIN_ENABLE" then
    [QUAD_TAB ++ "nvidia,lock = <" ++ get_lock e.cfg ++ ">;"]
   else []) ++
  (if get_od e.cfg == "TEGRA_PIN_ENABLE" then
    [QUAD_TAB ++ "nvidia,open-drain = <" ++ get_od e.cfg ++ ">;"]
   else []) ++
  (if get_ddc e.cfg ≠ 0 then
    [QUAD_TAB ++ "nvidia,e-io-od = <" ++ get_rcvsel e.cfg ++ ">;"]
   else []) ++
  (if get_has_eqos e.cfg ≠ 0 then
    [QUAD_TAB ++ "nvidia,e-lpbk = <" ++ get_eqos e.cfg ++ ">;"]
   else []) ++
  [TRIPLE_TAB ++ "\x7d;"]

/- Pin blocks joined with one empty line between consecutive blocks. -/
def joinBlocks : List (List String) → List String
  | [] => []
  | [b] => b
  | b :: rest => b ++ [""] ++ joinBlocks rest

/- print_pinmux_dt as its list of output lines (the source returns the lines
   joined by newlines plus a final newline; see pinmux_dtsi_text). -/
def print_pinmux_dt (used unused : List PinEntry) : List String :=
  [DOUBLE_TAB ++ "common \x7b", TRIPLE_TAB ++ "/* SFIO Pin Configuration */"] ++
  joinBlocks (used.map entryBlockLines) ++
  [DOUBLE_TAB ++ "\x7d;", "", TAB ++ "pinmux_unused_lowpower: unused_lowpower \x7b"] ++
  joinBlocks (unused.map entryBlockLines) ++
  [DOUBLE_TAB ++ "\x7d;", "", DOUBLE_TAB ++ "drive_default: drive \x7b",
   DOUBLE_TAB ++ "\x7d;"]

def pinmux_dtsi_text (rows : List Row) : String :=
  String.intercalate "\n" (print_pinmux_dt (usedEntries rows) (unusedEntries rows)) ++ "\n"

end Gen

/-- C3: a row whose stripped pin identifier is non-empty is classified unused
exactly when its function text is empty, or its function text begins with
"unused" case-insensitively, or its direction is "not assigned" / "n/a"
(case-insensitively; the sheet spells them "Not Assigned" and "N/A"); every
other such row is classified active; an active row's descriptor retains the
declared function name, and an unused row's descriptor gets the literal
"unused" exactly when its function is empty. -/
theorem row_classification (rows : List Gen.Row) (r : Gen.Row)
    (hmem : r ∈ rows) (hpin : Py.pyStrip r.mpio ≠ "") :
    (r ∈ Gen.unused_rows rows ↔
      (Py.pyStrip r.function = "" ∨
        Py.pyStarts "unused" (Py.pyLower (Py.pyStrip r.function)) = true ∨
        Gen.at_of r = "not assigned" ∨ Gen.at_of r = "n/a")) ∧
    (r ∈ Gen.used_rows rows ↔
      ¬(Py.pyStrip r.function = "" ∨
        Py.pyStarts "unused" (Py.pyLower (Py.pyStrip r.function)) = true ∨
        Gen.at_of r = "not assigned" ∨ Gen.at_of r = "n/a")) ∧
    (Gen.usedEntryOf r).sfio = Py.pyStrip r.function ∧
    ((Gen.unusedEntryOf r).sfio =
      if Py.pyStrip r.function = "" then "unused" else Py.pyStrip r.function) := by
  refine ⟨?_, ?_, rfl, ?_⟩
  · simp [Gen.unused_rows, List.mem_filter, hmem, Gen.rowKept, hpin, Gen.isUnusedRow]
    tauto
  · simp [Gen.used_rows, List.mem_filter, hmem, Gen.rowKept, hpin, Gen.isUnusedRow]
    tauto
  · by_cases hf : Py.pyStrip r.function = "" <;> simp [Gen.unusedEntryOf, hf]

/-- Witness for C3: a row with function "unused_spare" and direction
"Not Assigned" (and a pull mode set) is classified unused. -/
theorem row_classification_w :
    (⟨"", "", "GP3", "unused_spare", "Not Assigned", "Int PU", "", ""⟩ : Gen.Row) ∈
      Gen.unused_rows [⟨"", "", "GP3", "unused_spare", "Not Assigned", "Int PU", "", ""⟩] :=
  ((row_classification _ _ (by simp) (by decide)).1).mpr (by decide)

/-- C2 counterexample: two active rows with the same pin identifier "GP1" are
both kept by the builder — the used group carries the identifier twice and the
earlier row's descriptor (function "f1") still appears in the rendered output,
so duplicates are not dropped and the later row does not win. -/
theorem builder_no_dedup_cex :
    (Gen.usedEntries [⟨"", "", "GP1", "f1", "Output", "Z", "", ""⟩,
        ⟨"", "", "GP1", "f2", "Output", "Z", "", ""⟩]).map Gen.PinEntry.mpio =
      ["GP1", "GP1"] ∧
    "\t\t\t\tnvidia,function = \"f1\";" ∈
      Gen.print_pinmux_dt
        (Gen.usedEntries [⟨"", "", "GP1", "f1", "Output", "Z", "", ""⟩,
          ⟨"", "", "GP1", "f2", "Output", "Z", "", ""⟩])
        (Gen.unusedEntries [⟨"", "", "GP1", "f1", "Output", "Z", "", ""⟩,
          ⟨"", "", "GP1", "f2", "Output", "Z", "", ""⟩]) := by decide

/-- C2 as amended: the builder performs no deduplication — every classified
row contributes exactly one descriptor carrying its own stripped pin
identifier, in table order, in its group; rows sharing a pin identifier each
keep their descriptor (there is no last-write-wins replacement). -/
theorem builder_descriptor_per_row (rows : List Gen.Row) :
    (Gen.usedEntries rows).map Gen.PinEntry.mpio =
      (Gen.used_rows rows).map (fun r => Py.pyStrip r.mpio) ∧
    (Gen.unusedEntries rows).map Gen.PinEntry.mpio =
      (Gen.unused_rows rows).map (fun r => Py.pyStrip r.mpio) := by
  refine ⟨?_, ?_⟩
  · rw [Gen.usedEntries, List.map_map]; exact rfl
  · rw [Gen.unusedEntries, List.map_map]; exact rfl

/- ===== shared text machinery of the two delta scripts ===== -/

namespace Dtsi

/- A word character of the regexes: [A-Za-z0-9_]. -/
def isWordChar (c : Char) : Bool :=
  ('A' ≤ c && c ≤ 'Z') || ('a' ≤ c && c ≤ 'z') || ('0' ≤ c && c ≤ '9') || c = '_'

def lbrace : Char := Char.ofNat 123
def rbrace : Char := Char.ofNat 125

/- Does the regex `\bcommon\s*` followed by an opening brace match here?
   When it does, return the text right after that opening brace. -/
def commonAt (cs : List Char) : Option (List Char) :=
  if cs.take 6 = "common".toList then
    match (cs.drop 6).dropWhile Py.pyIsSpace with
    | c :: rest => if c = lbrace then some rest else none
    | [] => none
  else none

/- re.search: leftmost match; prevWord tracks the word boundary \b. -/
def searchCommon : List Char → Bool → Option (List Char)
  | [], _ => none
  | c :: rest, prevWord =>
    match if prevWord then none else commonAt (c :: rest) with
    | some after => some after
    | none => searchCommon rest (isWordChar c)

/- Depth-counted scan after the opening brace: the characters strictly before
   the brace on which the depth returns to zero, or none when the braces never
   balance before the input ends. -/
def takeBalanced : List Char → Int → Option (List Char)
  | [], _ => none
  | c :: rest, depth =>
    let d := if c = lbrace then depth + 1 else if c = rbrace then depth - 1 else depth
    if d = 0 then some []
    else
      match takeBalanced rest d with
      | some body => some (c :: body)
      | none => none

/- extract_common_section, implemented identically in both delta scripts:
   the body of the first common-section, or "" when the keyword or its
   balanced braces cannot be located.  (The capitalized script's extra
   end-before-start guard only fires when the body is empty, returning ""
   either way.) -/
def extract_common_section (text : String) : String :=
  match searchCommon text.toList false with
  | none => ""
  | some after =>
    match takeBalanced after 1 with
    | none => ""
    | some body => String.mk body

end Dtsi

/- ===== Pinmux_dtsi_delta.py (comment-preserving differ) ===== -/

namespace DeltaC

/- The whole-line comment regex: after stripping surrounding whitespace the
   line starts with /* and ends with */ (so its stripped length is ≥ 4). -/
def isCommentLine (l : String) : Bool :=
  let t := Py.stripL l.toList
  4 ≤ t.length && ['/', '*'].isPrefixOf t && ['/', '*'].isPrefixOf t.reverse

/- The pin-header regex: optional whitespace, a word, optional whitespace, an
   opening brace; gives the pin name. -/
def pinHead (l : String) : Option String :=
  let t1 := l.toList.dropWhile Py.pyIsSpace
  let w := t1.takeWhile Dtsi.isWordChar
  if w.isEmpty then none
  else
    match (t1.drop w.length).dropWhile Py.pyIsSpace with
    | c :: _ => if c = Dtsi.lbrace then some (String.mk w) else none
    | [] => none

/- Per-line brace count difference. -/
def braceDelta (l : String) : Int :=
  (l.toList.count Dtsi.lbrace : Int) - (l.toList.count Dtsi.rbrace : Int)

/- Relative index of the line on which the running brace depth returns to
   zero (the end-of-block search of the parser). -/
def scanEnd : List String → Int → Option Nat
  | [], _ => none
  | l :: rest, depth =>
    let d := depth + braceDelta l
    if d = 0 then some 0
    else
      match scanEnd rest d with
      | some n => some (n + 1)
      | none => none

/- The parsing loop of parse_pin_blocks_with_comments, producing the ordered
   (pin, block lines) occurrences.  `pending` carries the lines from the most
   recent whole-line comment up to the current line (the source keeps the
   comment's index and slices from it, which includes any lines in between);
   an unterminated block aborts the remaining section.  The loop advances at
   least one line per iteration, so the line count bounds the iterations and
   the fuel argument of the wrapper below never runs out. -/
def blockSeqGo : Nat → List String → Option (List String) → List (String × List String)
  | 0, _, _ => []
  | _ + 1, [], _ => []
  | fuel + 1, l :: rest, pending =>
    if isCommentLine l then blockSeqGo fuel rest (some [l])
    else
      match pinHead l with
      | none =>
        blockSeqGo fuel rest
          (match pending with
           | some seg => some (seg ++ [l])
           | none => none)
      | some pin =>
        match scanEnd (l :: rest) 0 with
        | none => []
        | some n =>
          (pin, pending.getD [] ++ (l :: rest).take (n + 1)) ::
            blockSeqGo fuel ((l :: rest).drop (n + 1)) none

def blockSeq (lines : List String) : List (String × List String) :=
  blockSeqGo (lines.length + 1) lines none

/- parse_pin_blocks_with_comments: the dict from pin name to its block.  The
   block is kept as its list of lines; the source stores the equivalent pair
   of the lines joined by newlines (blockTextOf below) and the normalized
   comparison string (normOf below), both plain functions of the lines. -/
def parse_pin_blocks_with_comments (common_body : String) :
    List (String × List String) :=
  if common_body = "" then []
  else (blockSeq (Py.pySplitlines common_body)).foldl (fun d pv => Py.pyInsert d pv.1 pv.2) []

def blockTextOf (ls : List String) : String := String.intercalate "\n" ls

/- The normalized comparison form: drop whole-line comments, strip each
   remaining line, join with single spaces. -/
def normOf (ls : List String) : String :=
  String.intercalate " " ((ls.filter fun l => !isCommentLine l).map Py.pyStrip)

def blocksOf (text : String) : List (String × List String) :=
  parse_pin_blocks_with_comments (Dtsi.extract_common_section text)

/- sorted(set(before.keys()) | set(after.keys())). -/
def allPins (bb ab : List (String × List String)) : List String :=
  Py.pySorted ((bb.map Prod.fst ++ ab.map Prod.fst).dedup)

/- The changed_pins loop of build_delta_common: pins absent from AFTER are
   skipped, pins new in AFTER are changed, pins in both are changed exactly
   when their normalized forms differ. -/
def changedPins (before_text after_text : String) : List String :=
  let bb := blocksOf before_text
  let ab := blocksOf after_text
  (allPins bb ab).filter fun pin =>
    match Py.pyGet ab pin, Py.pyGet bb pin with
    | none, _ => false
    | some _, none => true
    | some a, some b => !(normOf a == normOf b)

/- Elements separated by one empty line. -/
def sepEmpty : List String → List String
  | [] => []
  | [x] => [x]
  | x :: rest => x :: "" :: sepEmpty rest

/- build_delta_common: "" when nothing changed, otherwise the header lines,
   the changed blocks of AFTER (raw text right-stripped, blank line between
   blocks), and the closing lines, joined by newlines. -/
def build_delta_common (before_text after_text : String) : String :=
  let ab := blocksOf after_text
  let changed := changedPins before_text after_text
  if changed = [] then ""
  else
    String.intercalate "\n"
      (["\t\t/* Auto-generated: delta of changed pins only */",
        "\t\tcommon \x7b",
        "\t\t\t/* Only pins that changed vs. BEFORE */"] ++
       sepEmpty (changed.map fun pin =>
         Py.pyRstrip (blockTextOf ((Py.pyGet ab pin).getD []))) ++
       ["\t\t\x7d;", ""])

end DeltaC

/- ===== pinmux_dtsi_delta.py (regex-based standalone differ) ===== -/

namespace DeltaRx

/- One attempt of PIN_BLOCK_RE at the current position: the indentation, the
   pin word, optional whitespace, the opening brace, the greedy whitespace,
   the lazy body group up to the first closing brace, then trailing
   whitespace and an optional semicolon.  Returns the pin, the body group and
   the rest of the input after the match. -/
def tryMatchAt (cs : List Char) : Option (String × List Char × List Char) :=
  let t1 := cs.dropWhile Py.pyIsSpace
  let w := t1.takeWhile Dtsi.isWordChar
  if w.isEmpty then none
  else
    match (t1.drop w.length).dropWhile Py.pyIsSpace with
    | c :: after =>
      if c = Dtsi.lbrace then
        let t2 := after.dropWhile Py.pyIsSpace
        if t2.contains Dtsi.rbrace then
          let body := t2.takeWhile fun ch => !(ch = Dtsi.rbrace)
          let rest1 := (t2.dropWhile fun ch => !(ch = Dtsi.rbrace)).tail
          let rest2 := rest1.dropWhile Py.pyIsSpace
          let rest3 :=
            match rest2 with
            | c2 :: r => if c2 = ';' then r else c2 :: r
            | [] => []
          some (String.mk w, body, rest3)
        else none
      else none
    | [] => none

/- finditer: try to match at every position, left to right, resuming after
   each match.  Every step consumes at least one character, so the character
   count bounds the iterations and the wrapper's fuel never runs out. -/
def finditGo : Nat → List Char → List (String × List Char)
  | 0, _ => []
  | _ + 1, [] => []
  | fuel + 1, c :: rest =>
    match tryMatchAt (c :: rest) with
    | some (pin, body, after) => (pin, body) :: finditGo fuel after
    | none => finditGo fuel rest

/- The ordered (pin, raw body group) occurrences of the section body. -/
def pinOccs (common_body : String) : List (String × List Char) :=
  finditGo (common_body.toList.length + 1) common_body.toList

/- Whitespace runs collapsed to single spaces (re.sub with a whitespace-run
   pattern and a one-space replacement); prevWs remembers an open run. -/
def collapseGo : Bool → List Char → List Char
  | _, [] => []
  | prevWs, c :: rest =>
    if Py.pyIsSpace c then
      if prevWs then collapseGo true rest else ' ' :: collapseGo true rest
    else c :: collapseGo false rest

/- The normalized body: strip, then collapse every whitespace run. -/
def normBody (body : List Char) : String :=
  String.mk (collapseGo false (Py.stripL body))

/- parse_pin_blocks: the dict from pin name to normalized body. -/
def parse_pin_blocks (common_body : String) : List (String × String) :=
  (pinOccs common_body).foldl (fun d pv => Py.pyInsert d pv.1 (normBody pv.2)) []

def blocksOf (text : String) : List (String × String) :=
  parse_pin_blocks (Dtsi.extract_common_section text)

/- The changed loop of main, iterating the AFTER dict in insertion order; a
   pin is changed when BEFORE has no entry or a different normalized body.
   (Only the pin names matter to the claims; the loop's pretty-body
   re-extraction feeds the rendered text alone.) -/
def changedNames (before_text after_text : String) : List String :=
  let b := blocksOf before_text
  let a := blocksOf after_text
  (a.filter fun pv => !(Py.pyGet b pv.1 == some pv.2)).map Prod.fst

/- main's strictness gate: a SystemExit diagnostic when either input has no
   non-empty extracted common section, otherwise the changed list. -/
def mainResult (before_text after_text : String) : Except String (List String) :=
  let c_before := Dtsi.extract_common_section before_text
  let c_after := Dtsi.extract_common_section after_text
  if c_before = "" ∨ c_after = "" then
    Except.error "Could not find 'common \x7b ... \x7d' in one or both input files."
  else Except.ok (changedNames before_text after_text)

end DeltaRx

/- ===== dictionary lemmas (Python dict semantics) ===== -/

namespace Py

theorem pyGet_pyInsert {α : Type} (d : List (String × α)) (k k1 : String) (v : α) :
    pyGet (pyInsert d k v) k1 = if k1 = k then some v else pyGet d k1 := by
  induction d with
  | nil =>
    by_cases h : k1 = k
    · subst h; simp [pyInsert, pyGet]
    · simp [pyInsert, pyGet, h, Ne.symm h]
  | cons hd tl ih =>
    obtain ⟨kh, vh⟩ := hd
    by_cases h : kh = k
    · subst h
      by_cases h1 : kh = k1
      · subst h1; simp [pyInsert, pyGet]
      · simp [pyInsert, pyGet, h1, Ne.symm h1]
    · by_cases h1 : kh = k1
      · subst h1
        simp [pyInsert, pyGet, h, Ne.symm h]
      · simp [pyInsert, pyGet, h, h1, ih]

theorem pyGet_foldl_pyInsert {α : Type} (seq : List (String × α))
    (d : List (String × α)) (k : String) :
    pyGet (seq.foldl (fun d1 pv => pyInsert d1 pv.1 pv.2) d) k =
      match lastVal seq k with
      | some v => some v
      | none => pyGet d k := by
  induction seq generalizing d with
  | nil => simp [lastVal]
  | cons pv rest ih =>
    simp only [List.foldl_cons, lastVal, ih (pyInsert d pv.1 pv.2), pyGet_pyInsert]
    cases lastVal rest k with
    | some v => rfl
    | none =>
      by_cases h : pv.1 = k
      · simp [h]
      · simp [h, Ne.symm h]

/- Folding a fresh dict from an occurrence list: the stored value of a key is
   the value of its last occurrence. -/
theorem pyGet_foldl_nil {α : Type} (seq : List (String × α)) (k : String) :
    pyGet (seq.foldl (fun d1 pv => pyInsert d1 pv.1 pv.2) [] ) k = lastVal seq k := by
  rw [pyGet_foldl_pyInsert]
  cases lastVal seq k <;> simp [pyGet]

theorem keys_pyInsert {α : Type} (d : List (String × α)) (k : String) (v : α) :
    (pyInsert d k v).map Prod.fst =
      if k ∈ d.map Prod.fst then d.map Prod.fst else d.map Prod.fst ++ [k] := by
  induction d with
  | nil => simp [pyInsert]
  | cons hd tl ih =>
    obtain ⟨kh, vh⟩ := hd
    by_cases h : kh = k
    · subst h; simp [pyInsert]
    · simp only [pyInsert, if_neg h, List.map_cons, ih]
      by_cases h2 : k ∈ tl.map Prod.fst
      · simp [h2, Ne.symm h]
      · simp [h2, Ne.symm h]

theorem nodup_keys_pyInsert {α : Type} (d : List (String × α)) (k : String) (v : α)
    (h : (d.map Prod.fst).Nodup) : ((pyInsert d k v).map Prod.fst).Nodup := by
  rw [keys_pyInsert]
  by_cases h2 : k ∈ d.map Prod.fst
  · simpa [h2] using h
  · simp only [h2, if_false]
    simpa [List.nodup_append, h2] using h

theorem nodup_keys_foldl {α : Type} (seq : List (String × α)) (d : List (String × α))
    (h : (d.map Prod.fst).Nodup) :
    ((seq.foldl (fun d1 pv => pyInsert d1 pv.1 pv.2) d).map Prod.fst).Nodup := by
  induction seq generalizing d with
  | nil => exact h
  | cons pv rest ih => exact ih _ (nodup_keys_pyInsert d pv.1 pv.2 h)

theorem pyGet_isSome_iff_mem {α : Type} (d : List (String × α)) (k : String) :
    (pyGet d k).isSome ↔ k ∈ d.map Prod.fst := by
  induction d with
  | nil => simp [pyGet]
  | cons hd tl ih =>
    by_cases h : hd.1 = k
    · simp [pyGet, h]
    · simp [pyGet, h, Ne.symm h, ih]

theorem mem_pyGet_isSome {α : Type} (d : List (String × α)) (pv : String × α)
    (h : pv ∈ d) : (pyGet d pv.1).isSome :=
  (pyGet_isSome_iff_mem d pv.1).mpr (List.mem_map_of_mem Prod.fst h)

theorem lastVal_isSome_of_mem {α : Type} (seq : List (String × α)) (k : String)
    (h : k ∈ seq.map Prod.fst) : (lastVal seq k).isSome := by
  induction seq with
  | nil => simp at h
  | cons pv rest ih =>
    simp only [lastVal]
    cases hl : lastVal rest k with
    | some v => simp
    | none =>
      rcases List.mem_cons.mp h with h1 | h1
      · simp [h1.symm]
      · have := ih h1; rw [hl] at this; simp at this

theorem lastVal_map_snd {α β : Type} (f : α → β) (seq : List (String × α)) (k : String) :
    lastVal (seq.map fun pv => (pv.1, f pv.2)) k = (lastVal seq k).map f := by
  induction seq with
  | nil => simp [lastVal]
  | cons pv rest ih =>
    simp only [List.map_cons, lastVal, ih]
    cases lastVal rest k with
    | some v => simp
    | none => by_cases h : pv.1 = k <;> simp [h]

theorem pySorted_perm (l : List String) : List.Perm (Py.pySorted l) l :=
  List.perm_insertionSort _ l

end Py

/-- C10: in both diff variants the per-section block parse is a map keyed by
pin name: when a section body contains two or more blocks headed by the same
pin name, the parse result holds exactly one entry for that name, whose
content is that of the last such block (the comment-preserving parser stores
the block's lines, the regex parser the normalized body), so the delta
comparison for that pin is computed between last occurrences only. -/
theorem parse_last_block_wins (body pin : String) :
    (2 ≤ (DeltaC.blockSeq (Py.pySplitlines body)).countP (fun pv => pv.1 == pin) →
      Py.pyGet (DeltaC.parse_pin_blocks_with_comments body) pin =
          Py.lastVal (DeltaC.blockSeq (Py.pySplitlines body)) pin ∧
        ((DeltaC.parse_pin_blocks_with_comments body).map Prod.fst).count pin = 1) ∧
    (2 ≤ (DeltaRx.pinOccs body).countP (fun pv => pv.1 == pin) →
      Py.pyGet (DeltaRx.parse_pin_blocks body) pin =
          (Py.lastVal (DeltaRx.pinOccs body) pin).map DeltaRx.normBody ∧
        ((DeltaRx.parse_pin_blocks body).map Prod.fst).count pin = 1) := by
  constructor
  · intro hcount
    have hb : ¬body = "" := by
      intro h
      rw [h, show DeltaC.blockSeq (Py.pySplitlines "") = [] from rfl] at hcount
      simp at hcount
    have hparse : DeltaC.parse_pin_blocks_with_comments body =
        (DeltaC.blockSeq (Py.pySplitlines body)).foldl
          (fun d pv => Py.pyInsert d pv.1 pv.2) [] := by
      simp [DeltaC.parse_pin_blocks_with_comments, hb]
    have hmemseq : pin ∈ (DeltaC.blockSeq (Py.pySplitlines body)).map Prod.fst := by
      have hpos : 0 < (DeltaC.blockSeq (Py.pySplitlines body)).countP
          (fun pv => pv.1 == pin) := by omega
      obtain ⟨pv, hpv, heq⟩ := List.countP_pos_iff.mp hpos
      have h1 : pv.1 = pin := by simpa using heq
      exact h1 ▸ List.mem_map_of_mem Prod.fst hpv
    refine ⟨by rw [hparse, Py.pyGet_foldl_nil], ?_⟩
    refine List.count_eq_one_of_mem ?_ ?_
    · rw [hparse]; exact Py.nodup_keys_foldl _ _ (by simp)
    · rw [hparse]
      exact (Py.pyGet_isSome_iff_mem _ pin).mp
        (by rw [Py.pyGet_foldl_nil]; exact Py.lastVal_isSome_of_mem _ _ hmemseq)
  · intro hcount
    have hparse : DeltaRx.parse_pin_blocks body =
        ((DeltaRx.pinOccs body).map fun pv => (pv.1, DeltaRx.normBody pv.2)).foldl
          (fun d pv => Py.pyInsert d pv.1 pv.2) [] := by
      rw [DeltaRx.parse_pin_blocks, List.foldl_map]
    have hmemseq : pin ∈ (((DeltaRx.pinOccs body).map
        fun pv => (pv.1, DeltaRx.normBody pv.2)).map Prod.fst) := by
      have hpos : 0 < (DeltaRx.pinOccs body).countP (fun pv => pv.1 == pin) := by omega
      obtain ⟨pv, hpv, heq⟩ := List.countP_pos_iff.mp hpos
      have h1 : pv.1 = pin := by simpa using heq
      exact h1 ▸ List.mem_map_of_mem Prod.fst (List.mem_map_of_mem _ hpv)
    refine ⟨by rw [hparse, Py.pyGet_foldl_nil, Py.lastVal_map_snd], ?_⟩
    refine List.count_eq_one_of_mem ?_ ?_
    · rw [hparse]; exact Py.nodup_keys_foldl _ _ (by simp)
    · rw [hparse]
      exact (Py.pyGet_isSome_iff_mem _ pin).mp
        (by rw [Py.pyGet_foldl_nil]; exact Py.lastVal_isSome_of_mem _ _ hmemseq)

/-- C8: removal invisibility: in both diff variants, a pin that has a block in
the BEFORE common section but none in the AFTER common section never appears
in the computed change list (and hence contributes no block to the delta
output, which renders exactly the changed pins). -/
theorem removals_invisible (before_text after_text pin : String) :
    ((Py.pyGet (DeltaC.blocksOf before_text) pin).isSome →
      Py.pyGet (DeltaC.blocksOf after_text) pin = none →
      pin ∉ DeltaC.changedPins before_text after_text) ∧
    ((Py.pyGet (DeltaRx.blocksOf before_text) pin).isSome →
      Py.pyGet (DeltaRx.blocksOf after_text) pin = none →
      pin ∉ DeltaRx.changedNames before_text after_text) := by
  constructor
  · intro _ hafter hmem
    simp only [DeltaC.changedPins] at hmem
    have hpred := (List.mem_filter.mp hmem).2
    rw [hafter] at hpred
    exact Bool.false_ne_true hpred
  · intro _ hafter hmem
    rw [DeltaRx.changedNames] at hmem
    obtain ⟨pv, hpv, hfst⟩ := List.mem_map.mp hmem
    have hsome := Py.mem_pyGet_isSome _ _ ((List.mem_filter.mp hpv).1)
    rw [hfst, hafter] at hsome
    exact Bool.false_ne_true hsome

/-- C9: asymmetric strictness at the two diff call sites.  When the common
section keyword or its balanced braces cannot be located in an input (the
extraction comes back empty), the comment-preserving differ treats that input
as an empty section — the parse yields no blocks and the diff proceeds,
classifying every pin of the other document's section as changed — whereas
the regex-based standalone differ aborts with its diagnostic whichever of its
two inputs is affected. -/
theorem missing_section_asymmetry (t other : String)
    (h : Dtsi.extract_common_section t = "") :
    DeltaC.blocksOf t = [] ∧
    DeltaC.changedPins t other =
      Py.pySorted (((DeltaC.blocksOf other).map Prod.fst).dedup) ∧
    DeltaRx.mainResult t other =
      Except.error "Could not find 'common \x7b ... \x7d' in one or both input files." ∧
    DeltaRx.mainResult other t =
      Except.error "Could not find 'common \x7b ... \x7d' in one or both input files." := by
  have hempty : DeltaC.blocksOf t = [] := by
    simp [DeltaC.blocksOf, h, DeltaC.parse_pin_blocks_with_comments]
  refine ⟨hempty, ?_, ?_, ?_⟩
  · simp only [DeltaC.changedPins, hempty, DeltaC.allPins, List.map_nil, List.nil_append]
    apply List.filter_eq_self.mpr
    intro pin hmem
    have hmem2 : pin ∈ (DeltaC.blocksOf other).map Prod.fst := by
      have hperm := Py.pySorted_perm (((DeltaC.blocksOf other).map Prod.fst).dedup)
      exact List.mem_dedup.mp (hperm.mem_iff.mp hmem)
    obtain ⟨a, ha⟩ := Option.isSome_iff_exists.mp ((Py.pyGet_isSome_iff_mem _ _).mpr hmem2)
    rw [ha]
    rfl
  · simp [DeltaRx.mainResult, h]
  · simp [DeltaRx.mainResult, h]

/-- Witness for C9 at an input with no common section. -/
theorem missing_section_asymmetry_w :
    DeltaRx.mainResult "no section here" "common \x7b\nGP1 \x7b\nx;\n\x7d;\n\x7d" =
      Except.error "Could not find 'common \x7b ... \x7d' in one or both input files." :=
  (missing_section_asymmetry "no section here" "common \x7b\nGP1 \x7b\nx;\n\x7d;\n\x7d"
    (by decide)).2.2.1

/- ===== comment / whitespace independence (C7) ===== -/

theorem isCommentLine_strip_congr (a b : String) (h : Py.pyStrip a = Py.pyStrip b) :
    DeltaC.isCommentLine a = DeltaC.isCommentLine b := by
  have h2 : Py.stripL a.toList = Py.stripL b.toList := congrArg String.data h
  simp only [DeltaC.isCommentLine, h2]

theorem filter_strip_congr : ∀ xs ys : List String,
    xs.map Py.pyStrip = ys.map Py.pyStrip →
    (xs.filter fun l => !DeltaC.isCommentLine l).map Py.pyStrip =
      (ys.filter fun l => !DeltaC.isCommentLine l).map Py.pyStrip
  | [], [], _ => rfl
  | [], _ :: _, h => by simp at h
  | _ :: _, [], h => by simp at h
  | x :: xs, y :: ys, h => by
    simp only [List.map_cons, List.cons.injEq] at h
    obtain ⟨h1, h2⟩ := h
    have hc : DeltaC.isCommentLine x = DeltaC.isCommentLine y :=
      isCommentLine_strip_congr _ _ h1
    by_cases hcx : DeltaC.isCommentLine x = true
    · rw [List.filter_cons, List.filter_cons, hcx, ← hc, hcx]
      exact filter_strip_congr xs ys h2
    · rw [List.filter_cons, List.filter_cons, eq_false_of_ne_true hcx,
        ← hc, eq_false_of_ne_true hcx]
      simp only [Bool.not_false, if_true, List.map_cons, h1,
        filter_strip_congr xs ys h2]

/- The C7 hypothesis: the two blocks differ only in a leading run of
   whole-line comments and in per-line leading/trailing whitespace,
   with the remaining lines pairwise equal after stripping. -/
def SameUpToCommentWs (lb la : List String) : Prop :=
  ∃ cb ca restb resta,
    lb = cb ++ restb ∧ la = ca ++ resta ∧
    (∀ l ∈ cb, DeltaC.isCommentLine l = true) ∧
    (∀ l ∈ ca, DeltaC.isCommentLine l = true) ∧
    restb.map Py.pyStrip = resta.map Py.pyStrip

theorem normOf_eq_of_sameUpTo (lb la : List String) (h : SameUpToCommentWs lb la) :
    DeltaC.normOf lb = DeltaC.normOf la := by
  obtain ⟨cb, ca, rb, ra, hlb, hla, hcb, hca, hmap⟩ := h
  subst hlb hla
  rw [DeltaC.normOf, DeltaC.normOf, List.filter_append, List.filter_append]
  have hcb0 : (cb.filter fun l => !DeltaC.isCommentLine l) = [] :=
    List.filter_eq_nil_iff.mpr fun l hl => by simp [hcb l hl]
  have hca0 : (ca.filter fun l => !DeltaC.isCommentLine l) = [] :=
    List.filter_eq_nil_iff.mpr fun l hl => by simp [hca l hl]
  rw [hcb0, hca0, List.nil_append, List.nil_append,
    filter_strip_congr rb ra hmap]

/-- C7: when a pin's block in BEFORE and its block in AFTER differ only in a
leading whole-line comment and in per-line leading/trailing whitespace, with
identical field bodies, the comment-preserving diff classifies the pin as
unchanged and it does not appear in the change list that is rendered into the
delta output. -/
theorem comment_independent_unchanged (before_text after_text pin : String)
    (lb la : List String)
    (hb : Py.pyGet (DeltaC.blocksOf before_text) pin = some lb)
    (ha : Py.pyGet (DeltaC.blocksOf after_text) pin = some la)
    (hsame : SameUpToCommentWs lb la) :
    pin ∉ DeltaC.changedPins before_text after_text := by
  intro hmem
  simp only [DeltaC.changedPins] at hmem
  have hpred := (List.mem_filter.mp hmem).2
  rw [ha, hb] at hpred
  have hpred2 : (!(DeltaC.normOf la == DeltaC.normOf lb)) = true := hpred
  rw [normOf_eq_of_sameUpTo lb la hsame] at hpred2
  simp at hpred2

/-- Witness for C7: the same pin block with a different leading comment and
different indentation is not reported as changed. -/
theorem comment_independent_unchanged_w :
    "GP1" ∉ DeltaC.changedPins
      "common \x7b\n\t/* Pin 1 - A */\n\tGP1 \x7b\n\t\tnvidia,pins;\n\t\x7d;\n\x7d"
      "common \x7b\n\t/* Pin 2 - B */\n\t GP1 \x7b\n nvidia,pins;\n \x7d;\n\x7d" :=
  comment_independent_unchanged _ _ "GP1"
    ["\t/* Pin 1 - A */", "\tGP1 \x7b", "\t\tnvidia,pins;", "\t\x7d;"]
    ["\t/* Pin 2 - B */", "\t GP1 \x7b", " nvidia,pins;", " \x7d;"]
    (by decide) (by decide)
    ⟨["\t/* Pin 1 - A */"], ["\t/* Pin 2 - B */"],
     ["\tGP1 \x7b", "\t\tnvidia,pins;", "\t\x7d;"],
     ["\t GP1 \x7b", " nvidia,pins;", " \x7d;"],
     rfl, rfl, by decide, by decide, by decide⟩

/- ===== lexicographic order of the emitted delta (C4) ===== -/

theorem lex_cons_elim {x y : Char} {xs ys : List Char}
    (h : List.Lex (fun c1 c2 => c1 < c2) (y :: ys) (x :: xs)) :
    y < x ∨ (y = x ∧ List.Lex (fun c1 c2 => c1 < c2) ys xs) := by
  cases h with
  | rel h1 => exact Or.inl h1
  | cons h1 => exact Or.inr ⟨rfl, h1⟩

theorem charListLe_iff_not_lex : ∀ a b : List Char,
    (Py.charListLe a b = true ↔ ¬List.Lex (fun c1 c2 => c1 < c2) b a)
  | [], b => iff_of_true (by simp [Py.charListLe]) (List.Lex.not_nil_right _ b)
  | x :: xs, [] =>
    iff_of_false (by simp [Py.charListLe]) (not_not_intro List.Lex.nil)
  | x :: xs, y :: ys => by
    rcases lt_trichotomy x y with hxy | hxy | hxy
    · refine iff_of_true (by simp [Py.charListLe, if_pos hxy]) fun hlex => ?_
      rcases lex_cons_elim hlex with h1 | ⟨heq, _⟩
      · exact absurd h1 (lt_asymm hxy)
      · exact lt_irrefl x (heq ▸ hxy)
    · subst hxy
      simp only [Py.charListLe, if_neg (lt_irrefl x), charListLe_iff_not_lex xs ys]
      constructor
      · intro hn hlex
        rcases lex_cons_elim hlex with h1 | ⟨_, h2⟩
        · exact lt_irrefl x h1
        · exact hn h2
      · intro hn hlex
        exact hn (List.Lex.cons hlex)
    · exact iff_of_false (by simp [Py.charListLe, if_neg (lt_asymm hxy), if_pos hxy])
        (not_not_intro (List.Lex.rel hxy))

theorem pyLe_iff_le (a b : String) : Py.pyLe a b ↔ a ≤ b := by
  rw [← not_lt, String.lt_iff_toList_lt, Py.pyLe, charListLe_iff_not_lex]
  constructor <;> intro h1 h2 <;> exact h1 h2

instance : IsTotal String Py.pyLe :=
  ⟨fun a b => by
    rcases le_total a b with h | h
    · exact Or.inl ((pyLe_iff_le a b).mpr h)
    · exact Or.inr ((pyLe_iff_le b a).mpr h)⟩

instance : IsTrans String Py.pyLe :=
  ⟨fun a b c hab hbc =>
    (pyLe_iff_le a c).mpr (le_trans ((pyLe_iff_le a b).mp hab) ((pyLe_iff_le b c).mp hbc))⟩

theorem pySorted_sorted (l : List String) : List.Sorted Py.pyLe (Py.pySorted l) :=
  List.sorted_insertionSort Py.pyLe l

theorem changedPins_sorted_lt (before_text after_text : String) :
    List.Sorted (fun a b : String => a < b)
      (DeltaC.changedPins before_text after_text) := by
  simp only [DeltaC.changedPins]
  apply List.Pairwise.filter
  have hnd : (DeltaC.allPins (DeltaC.blocksOf before_text)
      (DeltaC.blocksOf after_text)).Nodup :=
    (Py.pySorted_perm _).nodup_iff.mpr (List.nodup_dedup _)
  have hs : List.Sorted Py.pyLe (DeltaC.allPins (DeltaC.blocksOf before_text)
      (DeltaC.blocksOf after_text)) := pySorted_sorted _
  exact (hs.and hnd).imp fun hab =>
    lt_of_le_of_ne ((pyLe_iff_le _ _).mp hab.1) hab.2

/-- C4 counterexample: the regex-based standalone differ — one of the two
delta computations the claim covers — emits changed pins in after-document
order, not lexicographically: with the two changed pins written B before A in
the AFTER document, the emitted order is ["B", "A"] although "A" < "B". -/
theorem delta_order_cex :
    DeltaRx.changedNames "common \x7b\nC \x7b\np;\n\x7d;\n\x7d"
        "common \x7b\nB \x7b\nq;\n\x7d;\nA \x7b\nr;\n\x7d;\n\x7d" = ["B", "A"] ∧
      ("A" : String) < "B" := by
  constructor
  · decide
  · rw [String.lt_iff_toList_lt]
    exact List.Lex.rel (by decide)

/-- C4 as amended: the comment-preserving differ (build_delta_common) emits
its changed-pin blocks in strictly increasing lexicographic order of the pin
identifier — the emission order is the sorted, deduplicated key set, hence
independent of the order of blocks in either input — and both diff
computations are deterministic functions of their two inputs; the regex-based
standalone differ, however, emits changed pins in after-document order, not
necessarily lexicographic. -/
theorem delta_lex_order (before_text after_text : String) :
    List.Sorted (fun a b : String => a < b)
      (DeltaC.changedPins before_text after_text) ∧
    DeltaC.build_delta_common before_text after_text =
      DeltaC.build_delta_common before_text after_text ∧
    DeltaRx.changedNames before_text after_text =
      DeltaRx.changedNames before_text after_text :=
  ⟨changedPins_sorted_lt before_text after_text, rfl, rfl⟩

/-- Witness for C10: a section with two blocks both named GP1 parses, in both
variants, to a single entry for GP1 holding the second block's content. -/
theorem parse_last_block_wins_w :
    Py.pyGet (DeltaC.parse_pin_blocks_with_comments
        "GP1 \x7b\nx;\n\x7d;\nGP1 \x7b\ny;\n\x7d;") "GP1" =
      some ["GP1 \x7b", "y;", "\x7d;"] ∧
    ((DeltaC.parse_pin_blocks_with_comments
        "GP1 \x7b\nx;\n\x7d;\nGP1 \x7b\ny;\n\x7d;").map Prod.fst).count "GP1" = 1 ∧
    Py.pyGet (DeltaRx.parse_pin_blocks
        "GP1 \x7b\nx;\n\x7d;\nGP1 \x7b\ny;\n\x7d;") "GP1" = some "y;" ∧
    ((DeltaRx.parse_pin_blocks
        "GP1 \x7b\nx;\n\x7d;\nGP1 \x7b\ny;\n\x7d;").map Prod.fst).count "GP1" = 1 := by
  obtain ⟨h1, h2⟩ :=
    (parse_last_block_wins "GP1 \x7b\nx;\n\x7d;\nGP1 \x7b\ny;\n\x7d;" "GP1").1 (by decide)
  obtain ⟨h3, h4⟩ :=
    (parse_last_block_wins "GP1 \x7b\nx;\n\x7d;\nGP1 \x7b\ny;\n\x7d;" "GP1").2 (by decide)
  refine ⟨?_, h2, ?_, h4⟩
  · rw [h1]; decide
  · rw [h3]; decide

/-- Witness for C8: a pin present only in BEFORE is reported by neither diff
variant. -/
theorem removals_invisible_w :
    "GPZ" ∉ DeltaC.changedPins "common \x7b\nGPZ \x7b\nx;\n\x7d;\n\x7d"
        "common \x7b\nGPY \x7b\ny;\n\x7d;\n\x7d" ∧
    "GPZ" ∉ DeltaRx.changedNames "common \x7b\nGPZ \x7b\nx;\n\x7d;\n\x7d"
        "common \x7b\nGPY \x7b\ny;\n\x7d;\n\x7d" :=
  ⟨(removals_invisible "common \x7b\nGPZ \x7b\nx;\n\x7d;\n\x7d"
      "common \x7b\nGPY \x7b\ny;\n\x7d;\n\x7d" "GPZ").1 (by decide) (by decide),
   (removals_invisible "common \x7b\nGPZ \x7b\nx;\n\x7d;\n\x7d"
      "common \x7b\nGPY \x7b\ny;\n\x7d;\n\x7d" "GPZ").2 (by decide) (by decide)⟩
